import Mathlib

/-!
Verification of `src/common/lwan-http-authorize.c` (lwan HTTP Basic
authentication). Byte strings are modelled as `List Nat` (each element a
byte value); C strings are NUL-terminated, so the view of a byte sequence
as a C string stops at the first 0 byte.
-/

namespace LwanAuth

/-- The bytes of a Lean string literal, used to write concrete byte
sequences readably. All literals used are ASCII. -/
def bytes (s : String) : List Nat :=
  s.toList.map Char.toNat

/-- The C-string view of a byte sequence: the bytes up to (excluding) the
first NUL byte. -/
def cstr (s : List Nat) : List Nat :=
  s.takeWhile (fun b => b ≠ 0)

/-- The `streq` helper from lwan-common: `!strcmp(a, b)`, equality of the two
C strings. -/
def streq (a b : List Nat) : Bool :=
  cstr a = cstr b

/-- The credential index: `hash_str_new` keyed by C-string comparison.
Modelled as an association list of (username, password) byte strings. -/
def Hash := List (List Nat × List Nat)

/-- Lookup `hash_find` on a string-keyed hash: the value stored under a key that
is strcmp-equal to `key`, if any. -/
def hash_find : List (List Nat × List Nat) → List Nat → Option (List Nat)
  | [], _ => none
  | (k, v) :: rest, key => if cstr k = cstr key then some v else hash_find rest key

/-- Whether the hash already holds a strcmp-equal key. -/
def hashContains (h : List (List Nat × List Nat)) (key : List Nat) : Bool :=
  (hash_find h key).isSome

/-- Insertion `hash_add_unique`: fails (returns `-EEXIST`, here `none`) when the key
is already present, otherwise stores the pair. -/
def hash_add_unique (h : List (List Nat × List Nat)) (k v : List Nat) :
    Option (List (List Nat × List Nat)) :=
  if hashContains h k then none else some (h ++ [(k, v)])

/-- A record produced by the line-configuration reader for one line of the
password file: either a key/value line (`CONFIG_LINE_TYPE_LINE`) or any
other record type. -/
inductive ConfigLine where
  | kv (key value : List Nat)
  | other
deriving DecidableEq

def ConfigLine.isKV : ConfigLine → Bool
  | .kv _ _ => true
  | .other => false

/-- Result of `create_realm_file`: the credential index when creation
succeeded, plus the number of duplicate-username warnings logged. -/
structure CreateResult where
  entry : Option (List (List Nat × List Nat))
  warnings : Nat
deriving DecidableEq

/-- The `while (config_read_line(&f, &l))` loop of `create_realm_file`:
key/value lines are inserted with `hash_add_unique` (a duplicate key logs
a warning and the pair is discarded); any other record type raises
`config_error`, which makes the whole creation fail. -/
def createLoop (acc : List (List Nat × List Nat)) (warnings : Nat) :
    List ConfigLine → CreateResult
  | [] => ⟨some acc, warnings⟩
  | .kv k v :: rest =>
      match hash_add_unique acc k v with
      | some acc2 => createLoop acc2 warnings rest
      | none => createLoop acc (warnings + 1) rest
  | .other :: _ => ⟨none, warnings⟩

/-- Creation `create_realm_file`, given the records the configuration reader
produces for the file at `key` (I/O and allocation are taken to succeed;
an unreadable file corresponds to the caller seeing no record stream and
is not modelled here). -/
def create_realm_file (lines : List ConfigLine) : CreateResult :=
  createLoop [] 0 lines

/-- The bound `sizeof(((config_line_t *)0)->buffer)`. Modelled from the spec: the
fixed configuration-line buffer bound shared with the line-configuration
reader (`lwan-config.h` is not under src/); the spec fixes no numeric
value, the claims only use that it is one fixed bound. -/
def configLineBufferSize : Nat := 1024

/-- The value of a base64 alphabet byte, `none` for a byte outside the
alphabet. -/
def b64Val (c : Nat) : Option Nat :=
  if 65 ≤ c ∧ c ≤ 90 then some (c - 65)          -- A-Z
  else if 97 ≤ c ∧ c ≤ 122 then some (c - 97 + 26) -- a-z
  else if 48 ≤ c ∧ c ≤ 57 then some (c - 48 + 52)  -- 0-9
  else if c = 43 then some 62                      -- +
  else if c = 47 then some 63                      -- /
  else none

/-- The pad byte. -/
def b64Pad : Nat := 61  -- the byte of the pad character

/-- Modelled from the spec: the Base64 decoder (`src/common/base64.c` is
not under src/). Standard Base64: input consumed in groups of four
alphabet bytes, the last group may end in one or two pad bytes; anything
else fails. -/
def b64DecodeGroups : List Nat → Option (List Nat)
  | [] => some []
  | c1 :: c2 :: c3 :: c4 :: rest =>
      match b64Val c1, b64Val c2 with
      | some v1, some v2 =>
          if c3 = b64Pad ∧ c4 = b64Pad ∧ rest = [] then
            some [v1 * 4 + v2 / 16]
          else
            match b64Val c3 with
            | some v3 =>
                if c4 = b64Pad ∧ rest = [] then
                  some [v1 * 4 + v2 / 16, v2 % 16 * 16 + v3 / 4]
                else
                  match b64Val c4 with
                  | some v4 =>
                      (b64DecodeGroups rest).map
                        (fun ds => (v1 * 4 + v2 / 16) ::
                                   (v2 % 16 * 16 + v3 / 4) ::
                                   (v3 % 4 * 64 + v4) :: ds)
                  | none => none
            | none => none
      | _, _ => none
  | _ => none

/-- Decoding `base64_decode(src, len, &decoded_len)`: the decoded bytes, or `none`
on decode failure. The returned buffer is NUL-terminated after
`decoded_len` bytes, which the model reflects by taking the C string of a
suffix of the decoded bytes to end at the buffer's end. -/
def base64_decode (payload : List Nat) : Option (List Nat) :=
  b64DecodeGroups payload

/-- The externally observable calls `authorize` makes, in order. -/
inductive AuthEvent where
  | cacheGetAndRef
  | base64Run
deriving DecidableEq

/-- Result of `authorize`: the boolean outcome plus the trace of external
calls in the order the function performs them. -/
structure AuthOutcome where
  result : Bool
  events : List AuthEvent
deriving DecidableEq

/-- The function `authorize(coro, authorization, password_file)` from
`lwan-http-authorize.c` lines 141-181. `cacheResult` is what
`cache_coro_get_and_ref_entry` returns for `password_file` (the entries of
the realm's password file, or `none` when the entry is absent and
construction failed); `payload` is `authorization->value` /
`authorization->len`, already past the `"Basic "` prefix. The function
gets the cache entry first, then base64-decodes, bounds-checks the
decoded length against the config-line buffer, splits at the first `:`
(writing a NUL over it), looks the username up and compares passwords
with `streq`. -/
def authorize (cacheResult : Option (List (List Nat × List Nat)))
    (payload : List Nat) : AuthOutcome :=
  match cacheResult with
  | none => ⟨false, [.cacheGetAndRef]⟩
  | some rpf =>
    match base64_decode payload with
    | none => ⟨false, [.cacheGetAndRef, .base64Run]⟩
    | some decoded =>
      if configLineBufferSize ≤ decoded.length then
        ⟨false, [.cacheGetAndRef, .base64Run]⟩
      else
        match decoded.findIdx? (fun b => b = 58) with
        | none => ⟨false, [.cacheGetAndRef, .base64Run]⟩
        | some i =>
          -- `*colon = '\0'`: username is the C string at the start of the
          -- buffer, password the C string starting right after the colon.
          let username := decoded.take i
          let password := decoded.drop (i + 1)
          match hash_find rpf username with
          | none => ⟨false, [.cacheGetAndRef, .base64Run]⟩
          | some looked => ⟨streq password looked, [.cacheGetAndRef, .base64Run]⟩

/-- Type `lwan_value_t`: a pointer plus a length. `value = none` models a NULL
pointer; `value = some v` models a pointer to a NUL-terminated byte
sequence whose bytes (terminator excluded) are `v`. `len` is a `size_t`. -/
structure LwanValue where
  value : Option (List Nat)
  len : Nat
deriving DecidableEq

/-- Machine `size_t` arithmetic is modulo `2 ^ 64`. -/
def SIZE_T_MOD : Nat := 2 ^ 64

/-- The fields of `lwan_request_t` that `lwan_http_authorize` can touch,
plus an abstract `other` component for everything else. `responseHeaders`
models `request->response.headers`; a header entry is a
`lwan_key_value_t` (possibly-NULL key and value pointers). -/
structure LwanRequest (α : Type) where
  responseHeaders : Option (List (Option (List Nat) × Option (List Nat)))
  other : α
deriving DecidableEq

/-- The header list built on the `unauthorized` path:
`WWW-Authenticate: Basic realm="<realm>"` followed by the NULL
terminator entry. `coro_printf` formats the realm with `%s`, i.e. as a C
string. -/
def challengeHeaders (realm : List Nat) : List (Option (List Nat) × Option (List Nat)) :=
  [(some (bytes ("WWW-Authenticate")),
    some (bytes ("Basic realm=\"") ++ cstr realm ++ bytes ("\""))),
   (none, none)]

/-- The `unauthorized:` tail of `lwan_http_authorize`: allocate the
two-entry header list and attach it to the response (`coro_malloc` is
taken to succeed). -/
def unauthorized (req : LwanRequest α) (realm : List Nat) : LwanRequest α :=
  { req with responseHeaders := some (challengeHeaders realm) }

/-- What `lwan_http_authorize` leaves behind: its boolean return value,
the (possibly mutated) `authorization` argument, and the (possibly
mutated) request. -/
structure HttpAuthOutcome (α : Type) where
  result : Bool
  authorization : LwanValue
  request : LwanRequest α
deriving DecidableEq

/-- The entry point `lwan_http_authorize(request, authorization, realm, password_file)`
from lines 183-217. A NULL or non-`"Basic "`-prefixed authorization value
goes straight to `unauthorized`. Otherwise the authorization value is
mutated in place (`value += 6; len -= 6`, the length in `size_t`
arithmetic) and `authorize` decides; on failure the challenge headers are
attached. `cacheResult` is what the realm-password cache returns for
`password_file`. -/
def lwan_http_authorize (cacheResult : Option (List (List Nat × List Nat)))
    (req : LwanRequest α) (auth : LwanValue) (realm : List Nat) :
    HttpAuthOutcome α :=
  match auth.value with
  | none => ⟨false, auth, unauthorized req realm⟩
  | some v =>
    if (bytes ("Basic ")).isPrefixOf v then
      let auth2 : LwanValue :=
        ⟨some (v.drop 6), (auth.len + (SIZE_T_MOD - 6)) % SIZE_T_MOD⟩
      -- base64_decode reads auth2.len bytes starting at the advanced pointer
      if (authorize cacheResult ((v.drop 6).take auth2.len)).result then
        ⟨true, auth2, req⟩
      else
        ⟨false, auth2, unauthorized req realm⟩
    else
      ⟨false, auth, unauthorized req realm⟩

/-- The wiper `fourty_two_and_free(str)` (lines 37-45): overwrite every byte of the
C string with 42, then free it. The function returns the contents of the
memory at the moment it is released. -/
def fourty_two_and_free : List Nat → List Nat
  | [] => []
  | b :: rest => if b = 0 then b :: rest else 42 :: fourty_two_and_free rest

/-- Destruction `destroy_realm_file` (lines 118-124): `hash_free` calls the free
functions registered in `hash_str_new` — `fourty_two_and_free` — on every
stored key and value. The result is the contents of every credential
string's memory at release time. -/
def destroy_realm_file (entries : List (List Nat × List Nat)) :
    List (List Nat × List Nat) :=
  entries.map (fun p => (fourty_two_and_free p.1, fourty_two_and_free p.2))

/-!
Modelled from the spec: the generic cache engine
(`src/common/lwan-cache.c` is not under src/). The spec's
`RealmPasswordStore.get_and_ref` contract: for one uncached path, the
first requester triggers the single build; tasks requesting the same path
while the build is outstanding suspend, and every requester observes the
build's one outcome. The build outcome is the abstract parameter `r`
(`some e` for a built entry, `none` for a failed build).
-/

/-- Where one task stands in its `get_and_ref` call. -/
inductive TaskPhase where
  | start
  | builder
  | waiting
  | finished (r : Option Nat)
deriving DecidableEq

/-- The cache's state for the one path: no build yet, build outstanding,
or build completed with its outcome. -/
inductive BuildStatus where
  | idle
  | building
  | done (r : Option Nat)
deriving DecidableEq

/-- The whole system: cache status for the path, how many builds (file
reads/parses) have run, and each task's phase. -/
structure CacheSystem where
  status : BuildStatus
  builds : Nat
  tasks : List TaskPhase
deriving DecidableEq

/-- All of `n` tasks are about to call `get_and_ref` on the one uncached
path. -/
def cacheInit (n : Nat) : CacheSystem :=
  ⟨.idle, 0, List.replicate n .start⟩

/-- One scheduled step of one task. A task at `start` either begins the
build (cache idle), suspends (build outstanding), or takes the completed
outcome; the builder's next step completes the build with outcome `r`; a
suspended task resumes once the build is done and takes its outcome. -/
def stepTask (r : Option Nat) : TaskPhase → BuildStatus →
    TaskPhase × BuildStatus × Nat
  | .start, .idle => (.builder, .building, 1)
  | .start, .building => (.waiting, .building, 0)
  | .start, .done res => (.finished res, .done res, 0)
  | .builder, _ => (.finished r, .done r, 0)
  | .waiting, .done res => (.finished res, .done res, 0)
  | ph, st => (ph, st, 0)

/-- Schedule task `t` for one step (out-of-range ids do nothing). -/
def cacheStep (r : Option Nat) (s : CacheSystem) (t : Nat) : CacheSystem :=
  match s.tasks.get? t with
  | none => s
  | some ph =>
    let next := stepTask r ph s.status
    ⟨next.2.1, s.builds + next.2.2, s.tasks.set t next.1⟩

/-- Run an arbitrary schedule from the initial state. -/
def cacheRun (r : Option Nat) (n : Nat) (sched : List Nat) : CacheSystem :=
  sched.foldl (cacheStep r) (cacheInit n)

/-- Whether a task has completed its `get_and_ref` call. -/
def TaskPhase.isFinished : TaskPhase → Bool
  | .finished _ => true
  | _ => false

/-- The password the password file associates to `key`: the value of the
first key/value line whose key is strcmp-equal to `key`. -/
def firstKV : List ConfigLine → List Nat → Option (List Nat)
  | [], _ => none
  | .kv k v :: rest, key => if cstr k = cstr key then some v else firstKV rest key
  | .other :: rest, key => firstKV rest key

/-- The credential index accumulated by the creation loop over key/value
lines (duplicates skipped), used to state intermediate facts about
`createLoop`. -/
def insertLines (acc : List (List Nat × List Nat)) :
    List ConfigLine → List (List Nat × List Nat)
  | [] => acc
  | .kv k v :: rest =>
      match hash_add_unique acc k v with
      | some acc2 => insertLines acc2 rest
      | none => insertLines acc rest
  | .other :: _ => acc

/-- Every task phase in the list satisfies `allowed` (stated positionally
so that updates by `List.set` can be tracked index by index). -/
def phasesOK (allowed : TaskPhase → Prop) (l : List TaskPhase) : Prop :=
  ∀ j (h : j < l.length), allowed (l.get ⟨j, h⟩)

/-- At most one task is currently the builder. -/
def atMostOneBuilder (l : List TaskPhase) : Prop :=
  ∀ j1 (h1 : j1 < l.length) j2 (h2 : j2 < l.length),
    l.get ⟨j1, h1⟩ = .builder → l.get ⟨j2, h2⟩ = .builder → j1 = j2

/-- Invariant of the single-flight cache system: before any request the
cache is idle and nothing has been built; while the one build is
outstanding there is exactly one builder, one build has started, and no
task has finished; once the build is done its outcome is the build result
`r`, exactly one build ever ran, and every finished task finished with
`r`. -/
def CacheInv (r : Option Nat) (s : CacheSystem) : Prop :=
  (s.status = .idle → s.builds = 0 ∧ phasesOK (fun ph => ph = .start) s.tasks) ∧
  (s.status = .building → s.builds = 1 ∧
      phasesOK (fun ph => ph = .start ∨ ph = .builder ∨ ph = .waiting) s.tasks ∧
      atMostOneBuilder s.tasks) ∧
  (∀ res, s.status = .done res → res = r ∧ s.builds = 1 ∧
      phasesOK (fun ph => ph = .start ∨ ph = .waiting ∨ ph = .finished r) s.tasks)

/-- The password file of the spec's first testable property: records for
`alice = secret1` and `bob = secret2`. -/
def alicePasswordFile : List ConfigLine :=
  [.kv (bytes ("alice")) (bytes ("secret1")),
   .kv (bytes ("bob")) (bytes ("secret2"))]

/-!
## Theorems
-/

/-- C1: with a password file holding `alice -> secret1` and
`bob -> secret2`, `lwan_http_authorize` allows `Basic ` followed by the
Base64 of `alice:secret1`, and denies the Base64 of `alice:wrong`
(password mismatch) and of `carol:anything` (unknown username); at the
inner level, `authorize` returns true only for the first payload. -/
theorem authorize_spec_example :
    (lwan_http_authorize (create_realm_file alicePasswordFile).entry
        (⟨none, ()⟩ : LwanRequest Unit)
        ⟨some (bytes ("Basic YWxpY2U6c2VjcmV0MQ==")),
         (bytes ("Basic YWxpY2U6c2VjcmV0MQ==")).length⟩
        (bytes ("realm"))).result = true ∧
    (lwan_http_authorize (create_realm_file alicePasswordFile).entry
        (⟨none, ()⟩ : LwanRequest Unit)
        ⟨some (bytes ("Basic YWxpY2U6d3Jvbmc=")),
         (bytes ("Basic YWxpY2U6d3Jvbmc=")).length⟩
        (bytes ("realm"))).result = false ∧
    (lwan_http_authorize (create_realm_file alicePasswordFile).entry
        (⟨none, ()⟩ : LwanRequest Unit)
        ⟨some (bytes ("Basic Y2Fyb2w6YW55dGhpbmc=")),
         (bytes ("Basic Y2Fyb2w6YW55dGhpbmc=")).length⟩
        (bytes ("realm"))).result = false ∧
    (authorize (create_realm_file alicePasswordFile).entry
        (bytes ("YWxpY2U6c2VjcmV0MQ=="))).result = true ∧
    (authorize (create_realm_file alicePasswordFile).entry
        (bytes ("YWxpY2U6d3Jvbmc="))).result = false ∧
    (authorize (create_realm_file alicePasswordFile).entry
        (bytes ("Y2Fyb2w6YW55dGhpbmc="))).result = false := by
  decide

/-- C2: whenever the Authorization value is absent (NULL), or present but
not starting with the exact prefix `Basic `, `lwan_http_authorize`
returns false and attaches the two-entry challenge header list
(`WWW-Authenticate: Basic realm="<realm>"` followed by the NULL
terminator entry) to the response. -/
theorem lwan_http_authorize_challenge (α : Type)
    (cacheRes : Option (List (List Nat × List Nat)))
    (req : LwanRequest α) (auth : LwanValue) (realm : List Nat)
    (h : auth.value = none ∨
         ∃ v, auth.value = some v ∧ (bytes ("Basic ")).isPrefixOf v = false) :
    (lwan_http_authorize cacheRes req auth realm).result = false ∧
    (lwan_http_authorize cacheRes req auth realm).request.responseHeaders =
      some [(some (bytes ("WWW-Authenticate")),
             some (bytes ("Basic realm=\"") ++ cstr realm ++ bytes ("\""))),
            (none, none)] := by
  rcases h with h | ⟨v, hv, hpre⟩
  · simp [lwan_http_authorize, h, unauthorized, challengeHeaders]
  · simp [lwan_http_authorize, hv, hpre, unauthorized, challengeHeaders]

/-- Witness for C2: a request with no Authorization header is denied and
receives the challenge headers. -/
theorem lwan_http_authorize_challenge_witness :
    ((⟨none, 0⟩ : LwanValue).value = none ∨
     ∃ v, (⟨none, 0⟩ : LwanValue).value = some v ∧
       (bytes ("Basic ")).isPrefixOf v = false) ∧
    ((lwan_http_authorize none (⟨none, ()⟩ : LwanRequest Unit) ⟨none, 0⟩
        (bytes ("r"))).result = false ∧
     (lwan_http_authorize none (⟨none, ()⟩ : LwanRequest Unit) ⟨none, 0⟩
        (bytes ("r"))).request.responseHeaders =
      some [(some (bytes ("WWW-Authenticate")),
             some (bytes ("Basic realm=\"") ++ cstr (bytes ("r")) ++ bytes ("\""))),
            (none, none)]) :=
  ⟨Or.inl rfl,
   lwan_http_authorize_challenge Unit none ⟨none, ()⟩ ⟨none, 0⟩ (bytes ("r"))
     (Or.inl rfl)⟩

/-- C3: `authorize` returns false whenever Base64 decoding of the payload
fails, or the decoded bytes contain no `:` byte, or the decoded length is
at least the configuration-line buffer bound. -/
theorem authorize_reject_bad_payload
    (cacheRes : Option (List (List Nat × List Nat))) (payload : List Nat)
    (h : base64_decode payload = none ∨
         ∃ d, base64_decode payload = some d ∧
           (d.findIdx? (fun b => b = 58) = none ∨
            configLineBufferSize ≤ d.length)) :
    (authorize cacheRes payload).result = false := by
  cases cacheRes with
  | none => rfl
  | some rpf =>
    rcases h with h | ⟨d, hd, hcol | hlen⟩
    · simp [authorize, h]
    · unfold authorize
      rw [hd]
      by_cases hb : configLineBufferSize ≤ d.length
      · simp [hb]
      · simp [hb, hcol]
    · simp [authorize, hd, hlen]

/-- Witness for C3: a payload that is not valid Base64 is rejected. -/
theorem authorize_reject_bad_payload_witness :
    (base64_decode (bytes ("!!!")) = none ∨
     ∃ d, base64_decode (bytes ("!!!")) = some d ∧
       (d.findIdx? (fun b => b = 58) = none ∨
        configLineBufferSize ≤ d.length)) ∧
    (authorize (some []) (bytes ("!!!"))).result = false :=
  ⟨Or.inl (by decide),
   authorize_reject_bad_payload (some []) (bytes ("!!!")) (Or.inl (by decide))⟩

/-- C4 counterexample: with stored password `sec` for `alice`, the
payload decoding to the bytes of `alice:sec`, a NUL byte, and `X` is
accepted — `streq` stops at the NUL — although the decoded bytes after
the colon (`sec`, NUL, `X`) are not identical to the stored password
(`sec`). The claim's byte-for-byte comparison of all decoded bytes after
the colon does not hold. -/
theorem authorize_nul_byte_counterexample :
    (create_realm_file [ConfigLine.kv (bytes ("alice")) (bytes ("sec"))]).entry =
      some [(bytes ("alice"), bytes ("sec"))] ∧
    base64_decode (bytes ("YWxpY2U6c2VjAFg=")) =
      some (bytes ("alice:sec") ++ 0 :: bytes ("X")) ∧
    (bytes ("alice:sec") ++ 0 :: bytes ("X")).findIdx? (fun b => b = 58) =
      some 5 ∧
    hash_find [(bytes ("alice"), bytes ("sec"))]
      ((bytes ("alice:sec") ++ 0 :: bytes ("X")).take 5) = some (bytes ("sec")) ∧
    (bytes ("alice:sec") ++ 0 :: bytes ("X")).drop 6 ≠ bytes ("sec") ∧
    (authorize
        (create_realm_file [ConfigLine.kv (bytes ("alice")) (bytes ("sec"))]).entry
        (bytes ("YWxpY2U6c2VjAFg="))).result = true := by
  decide

/-- C4 amended: when the username is found, `authorize` succeeds if and
only if the decoded bytes after the first colon, viewed as a C string
(i.e. up to the first NUL byte), equal the stored password viewed as a C
string — `streq` comparison, not byte-for-byte comparison of all decoded
bytes. -/
theorem authorize_password_streq (idx : List (List Nat × List Nat))
    (payload d looked : List Nat) (i : Nat)
    (hd : base64_decode payload = some d)
    (hlen : d.length < configLineBufferSize)
    (hi : d.findIdx? (fun b => b = 58) = some i)
    (hf : hash_find idx (d.take i) = some looked) :
    ((authorize (some idx) payload).result = true ↔
      cstr (d.drop (i + 1)) = cstr looked) := by
  have hnb : ¬(configLineBufferSize ≤ d.length) := Nat.not_le.mpr hlen
  simp [authorize, hd, hnb, hi, hf, streq]

/-- Witness for C4 amended: the `alice:secret1` example, where the C
strings after the colon match. -/
theorem authorize_password_streq_witness :
    base64_decode (bytes ("YWxpY2U6c2VjcmV0MQ==")) =
      some (bytes ("alice:secret1")) ∧
    (bytes ("alice:secret1")).length < configLineBufferSize ∧
    (bytes ("alice:secret1")).findIdx? (fun b => b = 58) = some 5 ∧
    hash_find [(bytes ("alice"), bytes ("secret1"))]
      ((bytes ("alice:secret1")).take 5) = some (bytes ("secret1")) ∧
    ((authorize (some [(bytes ("alice"), bytes ("secret1"))])
        (bytes ("YWxpY2U6c2VjcmV0MQ=="))).result = true ↔
      cstr ((bytes ("alice:secret1")).drop 6) = cstr (bytes ("secret1"))) :=
  ⟨by decide, by decide, by decide, by decide,
   authorize_password_streq [(bytes ("alice"), bytes ("secret1"))]
     (bytes ("YWxpY2U6c2VjcmV0MQ==")) (bytes ("alice:secret1"))
     (bytes ("secret1")) 5 (by decide) (by decide) (by decide) (by decide)⟩

/-- C5 counterexample: for a payload that is not valid Base64, the trace
of `authorize` nevertheless records the `cache_coro_get_and_ref_entry`
call — indeed as its first action, before the decode — so the function
does not fail without consulting or building the realm cache entry. -/
theorem authorize_order_counterexample :
    base64_decode (bytes ("!!!")) = none ∧
    (authorize (some []) (bytes ("!!!"))).result = false ∧
    (authorize (some []) (bytes ("!!!"))).events =
      [AuthEvent.cacheGetAndRef, AuthEvent.base64Run] := by
  decide

/-- C5 amended: `authorize` calls `cache_coro_get_and_ref_entry` first,
before Base64 decoding (step 7 precedes steps 3-6); a payload failing
Base64 decoding still yields false, but only after the realm cache entry
has been consulted. -/
theorem authorize_cache_first
    (cacheRes : Option (List (List Nat × List Nat))) (payload : List Nat) :
    (authorize cacheRes payload).events.head? = some AuthEvent.cacheGetAndRef ∧
    (base64_decode payload = none →
      (authorize cacheRes payload).result = false) := by
  unfold authorize
  cases cacheRes with
  | none => exact ⟨rfl, fun _ => rfl⟩
  | some rpf =>
    cases hb : base64_decode payload with
    | none => exact ⟨rfl, fun _ => rfl⟩
    | some d =>
      refine ⟨?_, fun hc => by cases hc⟩
      by_cases hl : configLineBufferSize ≤ d.length
      · simp [hl]
      · cases hi : d.findIdx? (fun b => b = 58) with
        | none => simp [hl, hi]
        | some i =>
          cases hf : hash_find rpf (d.take i) with
          | none => simp [hl, hi, hf]
          | some looked => simp [hl, hi, hf]

/-- Witness for C5 amended, at a concrete cache entry and payload. -/
theorem authorize_cache_first_witness :
    (authorize (some []) (bytes ("!!!"))).events.head? =
      some AuthEvent.cacheGetAndRef ∧
    (base64_decode (bytes ("!!!")) = none →
      (authorize (some []) (bytes ("!!!"))).result = false) :=
  authorize_cache_first (some []) (bytes ("!!!"))

/-- The creation loop fails if any remaining record is not a key/value
line. -/
theorem createLoop_abort_of_other (lines : List ConfigLine) :
    ∀ acc w, ConfigLine.other ∈ lines → (createLoop acc w lines).entry = none := by
  induction lines with
  | nil => intro acc w h; cases h
  | cons l rest ih =>
    intro acc w h
    cases l with
    | kv k v =>
      have hr : ConfigLine.other ∈ rest := by
        cases h with
        | tail _ h2 => exact h2
      cases hadd : hash_add_unique acc k v with
      | some acc2 => simpa [createLoop, hadd] using ih acc2 w hr
      | none => simpa [createLoop, hadd] using ih acc (w + 1) hr
    | other => simp [createLoop]

/-- C7: a password file with any record other than a key/value line makes
`create_realm_file` fail (no entry is produced), and the failure is
propagated: `authorize` for that file returns false for every payload. -/
theorem create_realm_file_config_error (lines : List ConfigLine)
    (h : ConfigLine.other ∈ lines) :
    (create_realm_file lines).entry = none ∧
    ∀ payload, (authorize (create_realm_file lines).entry payload).result = false := by
  have he : (create_realm_file lines).entry = none :=
    createLoop_abort_of_other lines [] 0 h
  refine ⟨he, fun payload => ?_⟩
  rw [he]
  rfl

/-- Witness for C7: a file whose only record is not a key/value line. -/
theorem create_realm_file_config_error_witness :
    ConfigLine.other ∈ [ConfigLine.other] ∧
    (create_realm_file [ConfigLine.other]).entry = none ∧
    (authorize (create_realm_file [ConfigLine.other]).entry
        (bytes ("YWxpY2U6c2VjcmV0MQ=="))).result = false :=
  ⟨by decide,
   (create_realm_file_config_error [ConfigLine.other] (by decide)).1,
   (create_realm_file_config_error [ConfigLine.other] (by decide)).2
     (bytes ("YWxpY2U6c2VjcmV0MQ=="))⟩

/-- Wiping a NUL-free byte string overwrites every byte with 42. -/
theorem fourty_two_eq_map (s : List Nat) (h : 0 ∉ s) :
    fourty_two_and_free s = s.map (fun _ => 42) := by
  induction s with
  | nil => rfl
  | cons a rest ih =>
    have ha : a ≠ 0 := fun e => h (by simp [e])
    simp [fourty_two_and_free, ha,
          ih (fun hm => h (List.mem_cons_of_mem a hm))]

/-- C8: destroying a realm entry whose stored usernames and passwords are
C strings (hence NUL-free) leaves, in every credential string's memory,
exactly its original length of bytes, all equal to the fixed non-zero
sentinel 42 — no original secret byte survives. -/
theorem destroy_realm_file_wipes (entries : List (List Nat × List Nat))
    (h : ∀ p ∈ entries, 0 ∉ p.1 ∧ 0 ∉ p.2) :
    destroy_realm_file entries =
      entries.map (fun q => (q.1.map (fun _ => 42), q.2.map (fun _ => 42))) ∧
    (42 : Nat) ≠ 0 := by
  refine ⟨?_, by decide⟩
  unfold destroy_realm_file
  exact List.map_congr_left fun q hq =>
    by rw [fourty_two_eq_map q.1 (h q hq).1, fourty_two_eq_map q.2 (h q hq).2]

/-- Witness for C8: wiping the `alice`/`secret1` entry. -/
theorem destroy_realm_file_wipes_witness :
    (∀ p ∈ [(bytes ("alice"), bytes ("secret1"))],
        0 ∉ p.1 ∧ 0 ∉ p.2) ∧
    (destroy_realm_file [(bytes ("alice"), bytes ("secret1"))] =
      [(bytes ("alice"), bytes ("secret1"))].map
        (fun q => (q.1.map (fun _ => 42), q.2.map (fun _ => 42))) ∧
     (42 : Nat) ≠ 0) :=
  ⟨by decide,
   destroy_realm_file_wipes [(bytes ("alice"), bytes ("secret1"))] (by decide)⟩

/-- C10: when the Authorization value is present and starts with
`Basic `, `lwan_http_authorize` mutates the caller's authorization in
place — value advanced by 6 bytes and len decreased by 6 — on every
outcome, and leaves the rest of the request unchanged except that the
deny path attaches the response headers (on allow the request is entirely
untouched). -/
theorem lwan_http_authorize_mutates (α : Type)
    (cacheRes : Option (List (List Nat × List Nat)))
    (req : LwanRequest α) (auth : LwanValue) (realm v : List Nat)
    (hv : auth.value = some v)
    (hpre : (bytes ("Basic ")).isPrefixOf v = true)
    (h6 : 6 ≤ auth.len) (hlt : auth.len < SIZE_T_MOD) :
    (lwan_http_authorize cacheRes req auth realm).authorization.value =
        some (v.drop 6) ∧
    (lwan_http_authorize cacheRes req auth realm).authorization.len =
        auth.len - 6 ∧
    (lwan_http_authorize cacheRes req auth realm).request.other = req.other ∧
    ((lwan_http_authorize cacheRes req auth realm).result = true →
      (lwan_http_authorize cacheRes req auth realm).request = req) := by
  have hmod : (auth.len + (SIZE_T_MOD - 6)) % SIZE_T_MOD = auth.len - 6 := by
    unfold SIZE_T_MOD at hlt ⊢
    omega
  unfold lwan_http_authorize
  rw [hv]
  simp only [hpre, if_true]
  split
  · exact ⟨rfl, hmod, rfl, fun _ => rfl⟩
  · exact ⟨rfl, hmod, rfl, fun hc => absurd hc (by simp)⟩

/-- Witness for C10: a denied request still sees its authorization value
advanced past the `Basic ` prefix. -/
theorem lwan_http_authorize_mutates_witness :
    (⟨some (bytes ("Basic QQ==")), 10⟩ : LwanValue).value =
        some (bytes ("Basic QQ==")) ∧
    (bytes ("Basic ")).isPrefixOf (bytes ("Basic QQ==")) = true ∧
    6 ≤ 10 ∧ 10 < SIZE_T_MOD ∧
    ((lwan_http_authorize none (⟨none, 3⟩ : LwanRequest Nat)
        ⟨some (bytes ("Basic QQ==")), 10⟩
        (bytes ("r"))).authorization.value = some ((bytes ("Basic QQ==")).drop 6) ∧
     (lwan_http_authorize none (⟨none, 3⟩ : LwanRequest Nat)
        ⟨some (bytes ("Basic QQ==")), 10⟩
        (bytes ("r"))).authorization.len = 10 - 6 ∧
     (lwan_http_authorize none (⟨none, 3⟩ : LwanRequest Nat)
        ⟨some (bytes ("Basic QQ==")), 10⟩
        (bytes ("r"))).request.other = (⟨none, 3⟩ : LwanRequest Nat).other ∧
     ((lwan_http_authorize none (⟨none, 3⟩ : LwanRequest Nat)
        ⟨some (bytes ("Basic QQ==")), 10⟩
        (bytes ("r"))).result = true →
      (lwan_http_authorize none (⟨none, 3⟩ : LwanRequest Nat)
        ⟨some (bytes ("Basic QQ==")), 10⟩
        (bytes ("r"))).request = (⟨none, 3⟩ : LwanRequest Nat))) :=
  ⟨rfl, by decide, by decide, by decide,
   lwan_http_authorize_mutates Nat none ⟨none, 3⟩
     ⟨some (bytes ("Basic QQ==")), 10⟩ (bytes ("r")) (bytes ("Basic QQ=="))
     rfl (by decide) (by decide) (by decide)⟩

/-- Lookup `hash_find` only depends on the C string of the key (the hash
compares keys with strcmp). -/
theorem hash_find_congr (h : List (List Nat × List Nat)) (k1 k2 : List Nat)
    (he : cstr k1 = cstr k2) : hash_find h k1 = hash_find h k2 := by
  induction h with
  | nil => rfl
  | cons p rest ih =>
    obtain ⟨k0, v0⟩ := p
    simp only [hash_find, he, ih]

/-- A key found in the front part of an appended hash is found in the
whole. -/
theorem hash_find_append_some (a b : List (List Nat × List Nat))
    (key v : List Nat) (h : hash_find a key = some v) :
    hash_find (a ++ b) key = some v := by
  induction a with
  | nil => cases h
  | cons p rest ih =>
    obtain ⟨k0, v0⟩ := p
    by_cases he : cstr k0 = cstr key
    · simp only [hash_find, he, if_pos] at h ⊢
      · exact h
    · simp only [List.cons_append, hash_find, he, if_false] at h ⊢
      exact ih h

/-- A key absent from the front part of an appended hash is looked up in
the back part. -/
theorem hash_find_append_none (a b : List (List Nat × List Nat))
    (key : List Nat) (h : hash_find a key = none) :
    hash_find (a ++ b) key = hash_find b key := by
  induction a with
  | nil => rfl
  | cons p rest ih =>
    obtain ⟨k0, v0⟩ := p
    by_cases he : cstr k0 = cstr key
    · simp only [hash_find, he, if_pos] at h
      cases h
    · simp only [List.cons_append, hash_find, he, if_false] at h ⊢
      exact ih h

/-- Appending a strcmp-equal key makes the hash contain the probe key. -/
theorem hashContains_append_single (acc : List (List Nat × List Nat))
    (k v k2 : List Nat) (he : cstr k = cstr k2) :
    hashContains (acc ++ [(k, v)]) k2 = true := by
  unfold hashContains
  cases hacc : hash_find acc k2 with
  | some v0 => rw [hash_find_append_some acc [(k, v)] k2 v0 hacc]; rfl
  | none =>
      rw [hash_find_append_none acc [(k, v)] k2 hacc]
      simp [hash_find, he]

/-- On all-key/value records, `createLoop` succeeds and the resulting
index finds exactly what the accumulator finds, falling back to the first
matching line of the file (first write wins). -/
theorem createLoop_find (lines : List ConfigLine)
    (hkv : ∀ l ∈ lines, l.isKV = true) :
    ∀ acc w, ∃ idx, (createLoop acc w lines).entry = some idx ∧
      ∀ key, hash_find idx key =
        match hash_find acc key with
        | some v => some v
        | none => firstKV lines key := by
  induction lines with
  | nil =>
    intro acc w
    refine ⟨acc, rfl, fun key => ?_⟩
    cases hacc : hash_find acc key <;> simp [firstKV]
  | cons l rest ih =>
    intro acc w
    cases l with
    | kv k v =>
      have hrest : ∀ x ∈ rest, x.isKV = true := fun x hx =>
        hkv x (List.mem_cons_of_mem _ hx)
      cases hadd : hash_add_unique acc k v with
      | some acc2 =>
        have hacc2 : acc2 = acc ++ [(k, v)] ∧ hashContains acc k = false := by
          unfold hash_add_unique at hadd
          by_cases hc : hashContains acc k = true
          · rw [if_pos hc] at hadd; cases hadd
          · rw [if_neg hc] at hadd
            exact ⟨(Option.some_injective _ hadd).symm,
                   Bool.not_eq_true _ ▸ eq_false_of_ne_true hc⟩
        obtain ⟨idx, heq, hfind⟩ := ih hrest acc2 w
        refine ⟨idx, by simpa [createLoop, hadd] using heq, fun key => ?_⟩
        rw [hfind key]
        cases hacckey : hash_find acc key with
        | some v0 =>
          rw [hacc2.1, hash_find_append_some acc [(k, v)] key v0 hacckey]
        | none =>
          rw [hacc2.1, hash_find_append_none acc [(k, v)] key hacckey]
          by_cases he : cstr k = cstr key
          · simp [hash_find, he, firstKV]
          · simp [hash_find, he, firstKV]
      | none =>
        have hcon : hashContains acc k = true := by
          unfold hash_add_unique at hadd
          by_cases hc : hashContains acc k = true
          · exact hc
          · rw [if_neg hc] at hadd; cases hadd
        obtain ⟨idx, heq, hfind⟩ := ih hrest acc (w + 1)
        refine ⟨idx, by simpa [createLoop, hadd] using heq, fun key => ?_⟩
        rw [hfind key]
        cases hacckey : hash_find acc key with
        | some v0 => rfl
        | none =>
          by_cases he : cstr k = cstr key
          · exfalso
            have : hash_find acc k = hash_find acc key :=
              hash_find_congr acc k key he
            rw [hacckey] at this
            unfold hashContains at hcon
            rw [this] at hcon
            cases hcon
          · simp [firstKV, he]
    | other =>
      exact absurd (hkv _ (List.mem_cons_self _ _)) (by simp [ConfigLine.isKV])

/-- The warning count never decreases along the creation loop. -/
theorem createLoop_warn_mono (lines : List ConfigLine) :
    ∀ acc w, w ≤ (createLoop acc w lines).warnings := by
  induction lines with
  | nil => intro acc w; simp [createLoop]
  | cons l rest ih =>
    intro acc w
    cases l with
    | kv k v =>
      cases hadd : hash_add_unique acc k v with
      | some acc2 => simpa [createLoop, hadd] using ih acc2 w
      | none =>
        have h2 := ih acc (w + 1)
        simp only [createLoop, hadd]
        omega
    | other => simp [createLoop]

/-- Splitting the creation loop at a prefix of key/value records: the
loop continues from the accumulated index, with at least as many
warnings. -/
theorem createLoop_append (l1 : List ConfigLine) :
    ∀ acc w l2, (∀ l ∈ l1, l.isKV = true) →
      ∃ w2, w ≤ w2 ∧
        createLoop acc w (l1 ++ l2) = createLoop (insertLines acc l1) w2 l2 := by
  induction l1 with
  | nil => intro acc w l2 _; exact ⟨w, Nat.le_refl w, rfl⟩
  | cons l rest ih =>
    intro acc w l2 hkv
    have hrest : ∀ x ∈ rest, x.isKV = true := fun x hx =>
      hkv x (List.mem_cons_of_mem _ hx)
    cases l with
    | kv k v =>
      cases hadd : hash_add_unique acc k v with
      | some acc2 =>
        obtain ⟨w2, hw, heq⟩ := ih acc2 w l2 hrest
        exact ⟨w2, hw, by simpa [createLoop, insertLines, hadd] using heq⟩
      | none =>
        obtain ⟨w2, hw, heq⟩ := ih acc (w + 1) l2 hrest
        exact ⟨w2, by omega, by simpa [createLoop, insertLines, hadd] using heq⟩
    | other =>
      exact absurd (hkv _ (List.mem_cons_self _ _)) (by simp [ConfigLine.isKV])

/-- Inserting lines never removes a key from the index. -/
theorem hashContains_insertLines (l : List ConfigLine) :
    ∀ acc key, hashContains acc key = true →
      hashContains (insertLines acc l) key = true := by
  induction l with
  | nil => intro acc key h; exact h
  | cons c rest ih =>
    intro acc key h
    cases c with
    | kv k v =>
      cases hadd : hash_add_unique acc k v with
      | some acc2 =>
        have hacc2 : acc2 = acc ++ [(k, v)] := by
          unfold hash_add_unique at hadd
          by_cases hc : hashContains acc k = true
          · rw [if_pos hc] at hadd; cases hadd
          · rw [if_neg hc] at hadd
            exact (Option.some_injective _ hadd).symm
        have h2 : hashContains acc2 key = true := by
          unfold hashContains at h ⊢
          obtain ⟨v0, hv0⟩ := Option.isSome_iff_exists.1 h
          rw [hacc2, hash_find_append_some acc [(k, v)] key v0 hv0]
          rfl
        simpa [insertLines, hadd] using ih acc2 key h2
      | none => simpa [insertLines, hadd] using ih acc key h
    | other => simpa [insertLines] using h

/-- A username appearing on a key/value line of an all-key/value record
list is in the index after inserting those lines. -/
theorem hashContains_insertLines_of_mem (l : List ConfigLine) :
    ∀ acc k1 v1 k2, (∀ x ∈ l, x.isKV = true) →
      ConfigLine.kv k1 v1 ∈ l → cstr k1 = cstr k2 →
      hashContains (insertLines acc l) k2 = true := by
  induction l with
  | nil => intro acc k1 v1 k2 _ h _; cases h
  | cons c rest ih =>
    intro acc k1 v1 k2 hkv hmem he
    have hrest : ∀ x ∈ rest, x.isKV = true := fun x hx =>
      hkv x (List.mem_cons_of_mem _ hx)
    cases c with
    | kv k v =>
      cases hmem with
      | head =>
        cases hadd : hash_add_unique acc k1 v1 with
        | some acc2 =>
          have hacc2 : acc2 = acc ++ [(k1, v1)] := by
            unfold hash_add_unique at hadd
            by_cases hc : hashContains acc k1 = true
            · rw [if_pos hc] at hadd; cases hadd
            · rw [if_neg hc] at hadd
              exact (Option.some_injective _ hadd).symm
          have hc2 : hashContains acc2 k2 = true := by
            rw [hacc2]; exact hashContains_append_single acc k1 v1 k2 he
          simpa [insertLines, hadd] using
            hashContains_insertLines rest acc2 k2 hc2
        | none =>
          have hc1 : hashContains acc k1 = true := by
            unfold hash_add_unique at hadd
            by_cases hc : hashContains acc k1 = true
            · exact hc
            · rw [if_neg hc] at hadd; cases hadd
          have hc2 : hashContains acc k2 = true := by
            unfold hashContains at hc1 ⊢
            rw [← hash_find_congr acc k1 k2 he]
            exact hc1
          simpa [insertLines, hadd] using
            hashContains_insertLines rest acc k2 hc2
      | tail _ h2 =>
        cases hadd : hash_add_unique acc k v with
        | some acc2 =>
          simpa [insertLines, hadd] using ih acc2 k1 v1 k2 hrest h2 he
        | none =>
          simpa [insertLines, hadd] using ih acc k1 v1 k2 hrest h2 he
    | other =>
      exact absurd (hkv _ (List.mem_cons_self _ _)) (by simp [ConfigLine.isKV])

/-- A key/value record whose username is already in the index logs a
warning (and the loop carries on). -/
theorem createLoop_warn_of_contains (acc : List (List Nat × List Nat))
    (w : Nat) (k v : List Nat) (l2 : List ConfigLine)
    (hc : hashContains acc k = true) :
    w + 1 ≤ (createLoop acc w (ConfigLine.kv k v :: l2)).warnings := by
  have hadd : hash_add_unique acc k v = none := by
    unfold hash_add_unique; rw [if_pos hc]
  simp only [createLoop, hadd]
  exact createLoop_warn_mono l2 acc (w + 1)

/-- C6: a password file of well-formed `username = password` lines in
which some username occurs twice still loads successfully, the index
keeps the first value for every username (first write wins, the later
pair is discarded), and at least one warning is logged. -/
theorem create_realm_file_duplicate (l1 l2 : List ConfigLine)
    (k1 v1 k2 v2 : List Nat)
    (hkv : ∀ l ∈ l1 ++ ConfigLine.kv k2 v2 :: l2, l.isKV = true)
    (hmem : ConfigLine.kv k1 v1 ∈ l1)
    (hdup : cstr k1 = cstr k2) :
    ∃ idx,
      (create_realm_file (l1 ++ ConfigLine.kv k2 v2 :: l2)).entry = some idx ∧
      (∀ key, hash_find idx key =
        firstKV (l1 ++ ConfigLine.kv k2 v2 :: l2) key) ∧
      1 ≤ (create_realm_file (l1 ++ ConfigLine.kv k2 v2 :: l2)).warnings := by
  obtain ⟨idx, heq, hfind⟩ := createLoop_find _ hkv [] 0
  refine ⟨idx, heq, fun key => by simpa [hash_find] using hfind key, ?_⟩
  have hkv1 : ∀ l ∈ l1, l.isKV = true := fun l hl =>
    hkv l (List.mem_append_left _ hl)
  obtain ⟨w2, hw, hsplit⟩ := createLoop_append l1 [] 0 (ConfigLine.kv k2 v2 :: l2) hkv1
  have hc : hashContains (insertLines [] l1) k2 = true :=
    hashContains_insertLines_of_mem l1 [] k1 v1 k2 hkv1 hmem hdup
  have hwarn := createLoop_warn_of_contains (insertLines [] l1) w2 k2 v2 l2 hc
  unfold create_realm_file
  rw [hsplit]
  omega

/-- Witness for C6: `alice` listed twice; the first password survives,
loading succeeds, one warning. -/
theorem create_realm_file_duplicate_witness :
    (∀ l ∈ [ConfigLine.kv (bytes ("alice")) (bytes ("secret1"))] ++
        ConfigLine.kv (bytes ("alice")) (bytes ("other1")) :: [],
      l.isKV = true) ∧
    ConfigLine.kv (bytes ("alice")) (bytes ("secret1")) ∈
      [ConfigLine.kv (bytes ("alice")) (bytes ("secret1"))] ∧
    cstr (bytes ("alice")) = cstr (bytes ("alice")) ∧
    (∃ idx,
      (create_realm_file
          ([ConfigLine.kv (bytes ("alice")) (bytes ("secret1"))] ++
           ConfigLine.kv (bytes ("alice")) (bytes ("other1")) :: [])).entry =
        some idx ∧
      (∀ key, hash_find idx key =
        firstKV ([ConfigLine.kv (bytes ("alice")) (bytes ("secret1"))] ++
           ConfigLine.kv (bytes ("alice")) (bytes ("other1")) :: []) key) ∧
      1 ≤ (create_realm_file
          ([ConfigLine.kv (bytes ("alice")) (bytes ("secret1"))] ++
           ConfigLine.kv (bytes ("alice")) (bytes ("other1")) :: [])).warnings) :=
  ⟨by decide, by decide, rfl,
   create_realm_file_duplicate
     [ConfigLine.kv (bytes ("alice")) (bytes ("secret1"))] []
     (bytes ("alice")) (bytes ("secret1")) (bytes ("alice")) (bytes ("other1"))
     (by decide) (by decide) rfl⟩

/-- One step never changes the number of tasks. -/
theorem cacheStep_length (r : Option Nat) (s : CacheSystem) (t : Nat) :
    (cacheStep r s t).tasks.length = s.tasks.length := by
  unfold cacheStep
  cases hget : s.tasks.get? t with
  | none => rfl
  | some ph => simp [List.length_set]

/-- Running a schedule never changes the number of tasks. -/
theorem foldl_cacheStep_length (r : Option Nat) (sched : List Nat) :
    ∀ s : CacheSystem, (sched.foldl (cacheStep r) s).tasks.length = s.tasks.length := by
  induction sched with
  | nil => intro s; rfl
  | cons t rest ih => intro s; rw [List.foldl_cons, ih, cacheStep_length]

/-- The system always has its `n` tasks. -/
theorem cacheRun_length (r : Option Nat) (n : Nat) (sched : List Nat) :
    (cacheRun r n sched).tasks.length = n := by
  unfold cacheRun
  rw [foldl_cacheStep_length]
  simp [cacheInit]

/-- Setting one phase to a value satisfying `allowed` preserves
`phasesOK allowed`. -/
theorem phasesOK_set (p : TaskPhase → Prop) (l : List TaskPhase) (t : Nat)
    (ph2 : TaskPhase) (hl : phasesOK p l) (hp : p ph2) :
    phasesOK p (l.set t ph2) := by
  intro j hj
  have hj2 : j < l.length := by simpa using hj
  rw [List.get_set]
  by_cases he : t = j
  · rw [if_pos he]; exact hp
  · rw [if_neg he]; exact hl j hj2

/-- Setting one phase to a non-builder value preserves builder
uniqueness. -/
theorem atMostOneBuilder_set_nonbuilder (l : List TaskPhase) (t : Nat)
    (ph2 : TaskPhase) (hu : atMostOneBuilder l) (hnb : ph2 ≠ .builder) :
    atMostOneBuilder (l.set t ph2) := by
  intro j1 h1 j2 h2 hb1 hb2
  have h1' : j1 < l.length := by simpa using h1
  have h2' : j2 < l.length := by simpa using h2
  rw [List.get_set] at hb1 hb2
  by_cases e1 : t = j1
  · rw [if_pos e1] at hb1; exact absurd hb1 hnb
  · rw [if_neg e1] at hb1
    by_cases e2 : t = j2
    · rw [if_pos e2] at hb2; exact absurd hb2 hnb
    · rw [if_neg e2] at hb2
      exact hu j1 h1' j2 h2' hb1 hb2

/-- Making one task of an all-`start` system the builder keeps at most
one builder. -/
theorem atMostOneBuilder_set_start (l : List TaskPhase) (t : Nat)
    (hall : phasesOK (fun ph => ph = .start) l) :
    atMostOneBuilder (l.set t .builder) := by
  intro j1 h1 j2 h2 hb1 hb2
  have h1' : j1 < l.length := by simpa using h1
  have h2' : j2 < l.length := by simpa using h2
  rw [List.get_set] at hb1 hb2
  by_cases e1 : t = j1
  · by_cases e2 : t = j2
    · exact e1.symm.trans e2
    · rw [if_neg e2] at hb2
      exact absurd ((hall j2 h2').symm.trans hb2) (fun h => nomatch h)
  · rw [if_neg e1] at hb1
    exact absurd ((hall j1 h1').symm.trans hb1) (fun h => nomatch h)

/-- The initial system satisfies the invariant. -/
theorem cacheInv_init (r : Option Nat) (n : Nat) : CacheInv r (cacheInit n) := by
  refine ⟨?_, ?_, ?_⟩
  · intro _
    refine ⟨rfl, fun j hj => ?_⟩
    exact List.eq_of_mem_replicate (List.get_mem _ _ _)
  · intro h
    simp [cacheInit] at h
  · intro res h
    simp [cacheInit] at h

/-- The invariant is preserved by every step of every task. -/
theorem cacheInv_step (r : Option Nat) (s : CacheSystem) (t : Nat)
    (hinv : CacheInv r s) : CacheInv r (cacheStep r s t) := by
  obtain ⟨hA, hB, hC⟩ := hinv
  unfold cacheStep
  cases hget : s.tasks.get? t with
  | none => exact ⟨hA, hB, hC⟩
  | some ph =>
    obtain ⟨ht, hph⟩ := List.get?_eq_some.1 hget
    cases hst : s.status with
    | idle =>
      obtain ⟨hb0, hall⟩ := hA hst
      have hps : ph = .start := by rw [← hph]; exact hall t ht
      subst hps
      simp only [stepTask]
      refine ⟨?_, ?_, ?_⟩
      · intro h; simp at h
      · intro _
        refine ⟨?_, ?_, ?_⟩
        · show s.builds + 1 = 1
          omega
        · exact phasesOK_set _ s.tasks t _ (fun j hj => Or.inl (hall j hj))
            (Or.inr (Or.inl rfl))
        · exact atMostOneBuilder_set_start s.tasks t hall
      · intro res h; simp at h
    | building =>
      obtain ⟨hb1, hall, huniq⟩ := hB hst
      have hpt := hall t ht
      rw [hph] at hpt
      rcases hpt with rfl | rfl | rfl
      · -- a newly arriving task suspends
        simp only [stepTask]
        refine ⟨?_, ?_, ?_⟩
        · intro h; simp at h
        · intro _
          refine ⟨?_, ?_, ?_⟩
          · show s.builds + 0 = 1
            omega
          · exact phasesOK_set _ s.tasks t _ hall (Or.inr (Or.inr rfl))
          · exact atMostOneBuilder_set_nonbuilder s.tasks t _ huniq
              (fun h => nomatch h)
        · intro res h; simp at h
      · -- the builder completes the build with outcome r
        simp only [stepTask]
        refine ⟨?_, ?_, ?_⟩
        · intro h; simp at h
        · intro h; simp at h
        · intro res2 hres2
          have h2 : BuildStatus.done r = BuildStatus.done res2 := hres2
          injection h2 with h3
          subst h3
          refine ⟨rfl, ?_, ?_⟩
          · show s.builds + 0 = 1
            omega
          · intro j hj
            have hj' : j < s.tasks.length := by simpa using hj
            rw [List.get_set]
            by_cases e : t = j
            · rw [if_pos e]; exact Or.inr (Or.inr rfl)
            · rw [if_neg e]
              rcases hall j hj' with h | h | h
              · exact Or.inl h
              · exact absurd (huniq j hj' t ht h hph) (fun hh => e hh.symm)
              · exact Or.inr (Or.inl h)
      · -- a suspended task stays suspended while the build is outstanding
        simp only [stepTask]
        refine ⟨?_, ?_, ?_⟩
        · intro h; simp at h
        · intro _
          refine ⟨?_, ?_, ?_⟩
          · show s.builds + 0 = 1
            omega
          · exact phasesOK_set _ s.tasks t _ hall (Or.inr (Or.inr rfl))
          · exact atMostOneBuilder_set_nonbuilder s.tasks t _ huniq
              (fun h => nomatch h)
        · intro res h; simp at h
    | done res =>
      obtain ⟨hres, hb1, hall⟩ := hC res hst
      subst res
      have hpt := hall t ht
      rw [hph] at hpt
      rcases hpt with rfl | rfl | rfl <;>
        · simp only [stepTask]
          refine ⟨?_, ?_, ?_⟩
          · intro h; simp at h
          · intro h; simp at h
          · intro res2 hres2
            have h2 : BuildStatus.done r = BuildStatus.done res2 := hres2
            injection h2 with h3
            subst h3
            refine ⟨rfl, ?_, ?_⟩
            · show s.builds + 0 = 1
              omega
            · exact phasesOK_set _ s.tasks t _ hall (Or.inr (Or.inr rfl))

/-- The invariant holds after any schedule. -/
theorem cacheInv_run (r : Option Nat) (n : Nat) (sched : List Nat) :
    CacheInv r (cacheRun r n sched) := by
  unfold cacheRun
  have h : ∀ s : CacheSystem, CacheInv r s →
      CacheInv r (sched.foldl (cacheStep r) s) := by
    induction sched with
    | nil => intro s hs; exact hs
    | cons t rest ih =>
      intro s hs
      rw [List.foldl_cons]
      exact ih (cacheStep r s t) (cacheInv_step r s t hs)
  exact h (cacheInit n) (cacheInv_init r n)

/-- C9: for any interleaving of any number of tasks all requesting the
same uncached path, once every task has completed its `get_and_ref`
call, exactly one build (file read and parse) has run, and every task
observed the same outcome: the one build result `r`. -/
theorem cache_single_flight (r : Option Nat) (n : Nat) (sched : List Nat)
    (hn : 0 < n)
    (hfin : ∀ ph ∈ (cacheRun r n sched).tasks, ph.isFinished = true) :
    (cacheRun r n sched).builds = 1 ∧
    ∀ ph ∈ (cacheRun r n sched).tasks, ph = TaskPhase.finished r := by
  have hinv := cacheInv_run r n sched
  have hlen := cacheRun_length r n sched
  have h0 : 0 < (cacheRun r n sched).tasks.length := by rw [hlen]; exact hn
  cases hst : (cacheRun r n sched).status with
  | idle =>
    obtain ⟨_, hall⟩ := hinv.1 hst
    have h1 := hall 0 h0
    have hf := hfin _ (List.get_mem _ _ h0)
    rw [h1] at hf
    exact absurd hf (fun h => nomatch h)
  | building =>
    obtain ⟨_, hall, _⟩ := hinv.2.1 hst
    have h1 := hall 0 h0
    have hf := hfin _ (List.get_mem _ _ h0)
    rcases h1 with h | h | h <;> rw [h] at hf <;>
      exact absurd hf (fun hh => nomatch hh)
  | done res =>
    obtain ⟨hres, hb, hall⟩ := hinv.2.2 res hst
    subst hres
    refine ⟨hb, fun ph hmem => ?_⟩
    obtain ⟨i, hi⟩ := List.mem_iff_get.1 hmem
    have h1 := hall i.1 i.2
    rw [hi] at h1
    rcases h1 with h | h | h
    · exact absurd (hfin ph hmem) (by rw [h]; exact fun hh => nomatch hh)
    · exact absurd (hfin ph hmem) (by rw [h]; exact fun hh => nomatch hh)
    · exact h

/-- Witness for C9: two tasks, interleaved so the second arrives while
the first is building; one build, both finish with the build's result. -/
theorem cache_single_flight_witness :
    0 < 2 ∧
    (∀ ph ∈ (cacheRun (some 7) 2 [0, 1, 0, 1]).tasks, ph.isFinished = true) ∧
    ((cacheRun (some 7) 2 [0, 1, 0, 1]).builds = 1 ∧
     ∀ ph ∈ (cacheRun (some 7) 2 [0, 1, 0, 1]).tasks,
       ph = TaskPhase.finished (some 7)) :=
  ⟨by decide, by decide,
   cache_single_flight (some 7) 2 [0, 1, 0, 1] (by decide) (by decide)⟩

end LwanAuth
